import Mathlib

/-!
Verification development for the deno-vite-utils module-resolution engine.

The definitions below are shallow embeddings of the TypeScript sources:
JavaScript Map objects become association lists with JS Map.set/Map.get
semantics, strings manipulated character-wise become `List Char`, fallible
code returns `Option` or `Except`, and the external `deno info` invocation
becomes an explicit oracle parameter.
-/

namespace DenoViteUtils

/-- Association-list lookup, modelling JavaScript `Map.get` (first match; the
lists built by `mapSet` keep keys unique). -/
def alookup {α : Type} (k : String) : List (String × α) → Option α
  | [] => none
  | (k1, v) :: t => if k1 = k then some v else alookup k t

/-- Model of JavaScript `Map.set`: replaces the value under an existing key in
place, otherwise appends the binding at the end (JS Maps preserve insertion
order). -/
def mapSet {α : Type} (m : List (String × α)) (k : String) (v : α) : List (String × α) :=
  if (alookup k m).isSome then
    m.map (fun kv => if kv.1 = k then (k, v) else kv)
  else m ++ [(k, v)]

/-- Characters of a string literal; codec inputs are modelled as explicit
character lists. -/
def strChars (s : String) : List Char := s.data

/-- Prepends a character onto the first chunk of a split result. -/
def consHead (c : Char) : List (List Char) → List (List Char)
  | [] => [[c]]
  | h :: t => (c :: h) :: t

/-- Model of JavaScript `String.prototype.split` with the two-character
separator `"::"` (leftmost, non-overlapping occurrences). -/
def splitCC : List Char → List (List Char)
  | [] => [[]]
  | [c] => [[c]]
  | c1 :: c2 :: rest =>
    if c1 = ':' ∧ c2 = ':' then [] :: splitCC rest
    else consHead c1 (splitCC (c2 :: rest))

/-- Model of JavaScript `String.prototype.split` with a single-character
separator. -/
def splitChar (sep : Char) : List Char → List (List Char)
  | [] => [[]]
  | c :: rest =>
    if c = sep then [] :: splitChar sep rest
    else consHead c (splitChar sep rest)

/-- Model of JavaScript `Array.prototype.join` with a single-character
separator. -/
def joinChar (sep : Char) : List (List Char) → List Char
  | [] => []
  | [x] => x
  | x :: y :: rest => x ++ sep :: joinChar sep (y :: rest)

/-- Media types recognised by the resolver (src/unnamed/part_005, `DenoMediaType`). -/
inductive DenoMediaType
  | typeScript
  | tsx
  | javaScript
  | jsx
  | json
deriving DecidableEq, Repr

/-- The literal string each media type interpolates to in a template string. -/
def mediaTypeChars : DenoMediaType → List Char
  | .typeScript => strChars "TypeScript"
  | .tsx => strChars "TSX"
  | .javaScript => strChars "JavaScript"
  | .jsx => strChars "JSX"
  | .json => strChars "Json"

/-- The reserved sentinel `"\0deno"` used by the specifier codec. -/
def denoSentinel : List Char := strChars "\x00deno"

/-- Embedding of `toDenoSpecifier` (src/unnamed/part_001 lines 10-16): the
template string `\0deno::LOADER::ID::RESOLVED`. -/
def toDenoSpecifier (loader : DenoMediaType) (id resolved : List Char) : List Char :=
  denoSentinel ++ strChars "::" ++ mediaTypeChars loader ++ strChars "::" ++
    id ++ strChars "::" ++ resolved

/-- Result of parsing a virtual specifier; JavaScript destructuring leaves a
field `undefined` when the split yields too few chunks, modelled by `none`. -/
structure ParsedDenoSpecifier where
  loader : Option (List Char)
  id : Option (List Char)
  resolved : Option (List Char)
deriving DecidableEq, Repr

/-- Embedding of `parseDenoSpecifier` (src/unnamed/part_001 lines 18-21):
split on `"::"` and destructure `[_tag, loader, id, resolved]`. -/
def parseDenoSpecifier (spec : List Char) : ParsedDenoSpecifier :=
  let parts := splitCC spec
  { loader := parts.get? 1, id := parts.get? 2, resolved := parts.get? 3 }

/-- Embedding of `isDenoSpecifier` (src/unnamed/part_001 lines 6-8):
`str.startsWith('\0deno')`. -/
def isDenoSpecifier (s : List Char) : Bool :=
  denoSentinel.isPrefixOf s

/-- First chunk of a single-character split, modelling `xs.split(sep)[0]`
(a split result is never empty, so the default is unreachable). -/
def splitHead (sep : Char) (xs : List Char) : List Char :=
  (splitChar sep xs).headD []

/-- Embedding of `npmSpecifierToNpmId`
(src/deno-vite-plus/plugins/vite-deno-resolver.ts lines 20-44). Returns
`none` exactly where the JavaScript would dereference `undefined` (a scoped
name with no second path segment). -/
def npmSpecifierToNpmId (specifier : List Char) : Option (List Char) :=
  let withoutPrefix := specifier.drop 5
  let parts := splitChar '/' withoutPrefix
  match parts with
  | [] => none
  | p0 :: restParts =>
    if p0.head? = some '@' then
      match restParts with
      | [] => none
      | p1 :: pathParts =>
        let scopedPackage := p0 ++ '/' :: splitHead '@' p1
        some (if pathParts.length > 0 then
                scopedPackage ++ '/' :: joinChar '/' pathParts
              else scopedPackage)
    else
      let packageName := splitHead '@' p0
      some (if restParts.length > 0 then
              packageName ++ '/' :: joinChar '/' restParts
            else packageName)

/-- Raw dependency entry of an esm module as produced by the inspection tool
(src/unnamed/part_005, `EsmResolvedInfo.dependencies`); `codeSpecifier` embeds
the nested `code.specifier` field. -/
structure RawDep where
  specifier : String
  codeSpecifier : String
deriving DecidableEq, Repr

/-- Raw esm module record of a graph snapshot (src/unnamed/part_005,
`EsmResolvedInfo`); `localPath` embeds the `local` field. -/
structure EsmResolvedInfo where
  localPath : String
  size : Nat
  mediaType : DenoMediaType
  specifier : String
  dependencies : List RawDep
deriving DecidableEq, Repr

/-- One entry of a snapshot's `modules` array (src/unnamed/part_005): esm,
npm, node, or an error record. -/
inductive RawModule
  | esm (info : EsmResolvedInfo)
  | npm (specifier npmPackage : String)
  | node (specifier moduleName : String)
  | err (specifier message : String)
deriving DecidableEq, Repr

/-- The `specifier` field shared by every module-entry variant. -/
def RawModule.spec : RawModule → String
  | .esm info => info.specifier
  | .npm s _ => s
  | .node s _ => s
  | .err s _ => s

/-- Graph snapshot returned by one `deno info --json` invocation
(src/unnamed/part_005, `DenoInfoJsonV1`); `redirects` is an association list
modelling the JSON object. -/
structure DenoInfoJsonV1 where
  redirects : List (String × String)
  roots : List String
  modules : List RawModule
deriving DecidableEq, Repr

/-- Transformed dependency entry (src/unnamed/part_005, `ResolvedInfo.dependencies`). -/
structure Dep where
  relativePath : String
  specifier : String
deriving DecidableEq, Repr

/-- Transformed esm record stored in the cache (src/unnamed/part_005,
`ResolvedInfo`). -/
structure ResolvedInfo where
  localPath : String
  size : Nat
  mediaType : DenoMediaType
  specifier : String
  dependencies : List Dep
deriving DecidableEq, Repr

/-- Cached module record (src/unnamed/part_005, `Module`): a transformed esm
record or a raw npm/node/error record stored as-is. -/
inductive Module
  | esm (info : ResolvedInfo)
  | npm (specifier npmPackage : String)
  | node (specifier moduleName : String)
  | err (specifier message : String)
deriving DecidableEq, Repr

/-- Embedding of `DenoResolver.transformEsmModule` (src/unnamed/part_003
lines 227-242): rewrite each dependency's code specifier through the
snapshot's redirects map. -/
def transformEsmModule (esm : EsmResolvedInfo) (redirects : List (String × String)) :
    ResolvedInfo :=
  { localPath := esm.localPath
    size := esm.size
    mediaType := esm.mediaType
    specifier := esm.specifier
    dependencies := esm.dependencies.map (fun dep =>
      { relativePath := dep.specifier
        specifier := (alookup dep.codeSpecifier redirects).getD dep.codeSpecifier }) }

/-- State of a `DenoResolver` (src/unnamed/part_003 lines 200-203): the
`modules` cache and the `idToSpecifierCache` memo. Memo values are
`Option String` because the source may store the JavaScript value
`undefined` when a snapshot's roots array is empty. -/
structure ResolverState where
  modules : List (String × Module)
  idToSpecifierCache : List (String × Option String)
deriving DecidableEq, Repr

/-- The empty resolver state of a freshly constructed `DenoResolver`. -/
def initialResolverState : ResolverState := { modules := [], idToSpecifierCache := [] }

/-- Ingestion of one snapshot entry into the modules cache
(body of the loop in src/unnamed/part_003 lines 212-220): non-esm and error
entries are stored as-is, esm entries are transformed first. -/
def ingestModule (ms : List (String × Module)) (redirects : List (String × String)) :
    RawModule → List (String × Module)
  | .esm info => mapSet ms info.specifier (Module.esm (transformEsmModule info redirects))
  | .npm s p => mapSet ms s (Module.npm s p)
  | .node s n => mapSet ms s (Module.node s n)
  | .err s e => mapSet ms s (Module.err s e)

/-- Embedding of `DenoResolver.callDenoInfo` (src/unnamed/part_003 lines
209-225) after the external invocation returned `info`: ingest every snapshot
entry, then memoize `id` to `redirects[roots[0]] ?? roots[0]`. -/
def callDenoInfo (st : ResolverState) (id : String) (info : DenoInfoJsonV1) : ResolverState :=
  let modules1 := info.modules.foldl (fun ms m => ingestModule ms info.redirects m) st.modules
  let redirected := info.roots.head?.map (fun r => (alookup r info.redirects).getD r)
  { modules := modules1
    idToSpecifierCache := mapSet st.idToSpecifierCache id redirected }

/-- The external invoker: `some` is a parsed snapshot, `none` models a failed
invocation (nonzero exit of `deno info`, src/unnamed/part_002 lines 28-44). -/
def Env : Type := String → Option DenoInfoJsonV1

/-- Faults raised by the resolver, one per `throw` site
(src/unnamed/part_002 line 37 and src/unnamed/part_003 lines 253, 259, 280). -/
inductive ResolveErr
  | importerNotFound (s : String)
  | importerNotEsm (s : String)
  | failedToResolve (s : String)
  | invocationError (s : String)
deriving DecidableEq, Repr

/-- JavaScript truthiness applied to `map.get(k)`: a hit requires a present,
defined, nonempty string (the source tests `if (cached)` and `if (!specifier)`). -/
def truthyGet (m : List (String × Option String)) (k : String) : Option String :=
  match alookup k m with
  | some (some s) => if s = "" then none else some s
  | _ => none

deriving instance DecidableEq for Except

/-- Outcome of one `resolve` call: the returned value or the thrown fault, the
resolver state afterwards, and how many external invoker calls were made. -/
structure ResolveOutcome where
  result : Except ResolveErr (Option String)
  state : ResolverState
  invokerCalls : Nat
deriving DecidableEq, Repr

/-- Embedding of `DenoResolver.resolve` (src/unnamed/part_003 lines 244-285).
With an importer, search its cached dependencies; without one, consult the
memo and on a miss run `callDenoInfo` against the external invoker. -/
def resolve (env : Env) (st : ResolverState) (id : String)
    (importerSpecifier : Option String) : ResolveOutcome :=
  match importerSpecifier with
  | some imp =>
    match alookup imp st.modules with
    | none => ⟨.error (.importerNotFound imp), st, 0⟩
    | some (Module.esm info) =>
      match info.dependencies.find? (fun dep => dep.relativePath = id) with
      | some dep => ⟨.ok (some dep.specifier), st, 0⟩
      | none => ⟨.ok none, st, 0⟩
    | some _ => ⟨.error (.importerNotEsm imp), st, 0⟩
  | none =>
    match truthyGet st.idToSpecifierCache id with
    | some cached => ⟨.ok (some cached), st, 0⟩
    | none =>
      match env id with
      | none => ⟨.error (.invocationError id), st, 1⟩
      | some info =>
        let st1 := callDenoInfo st id info
        match truthyGet st1.idToSpecifierCache id with
        | some specifier => ⟨.ok (some specifier), st1, 1⟩
        | none => ⟨.error (.failedToResolve id), st1, 1⟩

/-- Sequential traversal of a dependency list by a walker function `w` (the
`for` loop of src/unnamed/part_003 lines 328-330), threading resolver state
and seen set left to right. -/
def walkListWith
    (w : ResolverState → List String → String → ResolverState × List String) :
    ResolverState → List String → List String → ResolverState × List String
  | st, seen, [] => (st, seen)
  | st, seen, d :: ds =>
    let r := w st seen d
    walkListWith w r.1 r.2 ds

/-- Embedding of the inner `walk` closure of `DenoResolver.collectDeps`
(src/unnamed/part_003 lines 301-331), with an explicit recursion-depth fuel:
skip if seen, mark seen, resolve on demand (a caught failure returns with the
mutated state), then recurse over the dependencies of a cached esm record. -/
def walk (env : Env) : Nat → ResolverState → List String → String →
    ResolverState × List String
  | 0 => fun st seen _ => (st, seen)
  | fuel1 + 1 => fun st seen spec =>
    if spec ∈ seen then (st, seen)
    else
      let seen1 := seen ++ [spec]
      let attempt : ResolverState × Bool :=
        if (alookup spec st.modules).isSome then (st, true)
        else
          let out := resolve env st spec none
          match out.result with
          | .error _ => (out.state, false)
          | .ok _ => (out.state, true)
      match attempt with
      | (st1, false) => (st1, seen1)
      | (st1, true) =>
        match alookup spec st1.modules with
        | some (Module.esm info) =>
          walkListWith (walk env fuel1) st1 seen1
            (info.dependencies.map (fun d => d.specifier))
        | _ => (st1, seen1)

/-- The dependency-list traversal at a given fuel. -/
def walkList (env : Env) (fuel : Nat) :
    ResolverState → List String → List String → ResolverState × List String :=
  walkListWith (walk env fuel)

/-- Embedding of `DenoResolver.collectDeps` (src/unnamed/part_003 lines
298-335): walk from the entry with an empty seen set and return the seen set
(in insertion order) together with the final resolver state. -/
def collectDeps (env : Env) (fuel : Nat) (st : ResolverState) (entry : String) :
    ResolverState × List String :=
  walk env fuel st [] entry

/-- Fate of one field of the parsed cache document under the JavaScript
expression `new Map(parsed.field)`: an absent field (`undefined`) yields an
empty map, a non-iterable value throws a TypeError, and an array of pairs
yields a map with later pairs winning. -/
inductive MapField (α : Type)
  | absent
  | invalid
  | pairs (l : List (String × α))
deriving DecidableEq, Repr

/-- Raw dependency entry shape of the session resolver's `ResolvedInfo`
(src/deno-vite-plus — the utils-level record with nested `code.specifier`). -/
structure SessionDep where
  specifier : String
  codeSpecifier : String
deriving DecidableEq, Repr

/-- Esm record stored by the session resolver (src/unnamed/part_001 lines
80-93, `ResolvedInfo`). -/
structure SessionEsmInfo where
  localPath : String
  size : Nat
  mediaType : DenoMediaType
  specifier : String
  dependencies : List SessionDep
deriving DecidableEq, Repr

/-- Parsed JSON document of a persisted cache file, one `MapField` per map
(src/unnamed/part_004 lines 34-37). -/
structure CacheDoc where
  esmModules : MapField SessionEsmInfo
  codeSpecifierToPath : MapField String
  idToSpecifier : MapField String
deriving DecidableEq, Repr

/-- Observable content of the persisted cache file: missing (read throws),
unparsable (`JSON.parse` throws), or parsed into a document. -/
inductive CacheFile
  | missing
  | unparsable
  | parsed (doc : CacheDoc)
deriving DecidableEq, Repr

/-- State of the session `Resolver`'s three cache maps (src/unnamed/part_004
lines 12-14). -/
structure SessionState where
  esmModules : List (String × SessionEsmInfo)
  codeSpecifierToPath : List (String × String)
  idToSpecifier : List (String × String)
deriving DecidableEq, Repr

/-- The cold-start state of a freshly constructed session `Resolver`. -/
def coldSessionState : SessionState :=
  { esmModules := [], codeSpecifierToPath := [], idToSpecifier := [] }

/-- Result of `new Map(pairs)`: insert every pair in order, later pairs
overwriting earlier ones with the same key. -/
def mapFromPairs {α : Type} (l : List (String × α)) : List (String × α) :=
  l.foldl (fun m kv => mapSet m kv.1 kv.2) []

/-- Evaluation of `new Map(parsed.field)`: `error` models the thrown
TypeError on a non-iterable field. -/
def buildMap {α : Type} : MapField α → Except Unit (List (String × α))
  | .absent => .ok []
  | .invalid => .error ()
  | .pairs l => .ok (mapFromPairs l)

/-- Embedding of `Resolver.readCache` (src/unnamed/part_004 lines 31-42): a
single try/catch around reading the file, parsing it, and assigning the three
maps in order; the catch swallows every failure, keeping whatever assignments
already happened. -/
def readCache (st : SessionState) (file : CacheFile) : SessionState :=
  match file with
  | .missing => st
  | .unparsable => st
  | .parsed doc =>
    match buildMap doc.esmModules with
    | .error _ => st
    | .ok m1 =>
      let st1 := { st with esmModules := m1 }
      match buildMap doc.codeSpecifierToPath with
      | .error _ => st1
      | .ok m2 =>
        let st2 := { st1 with codeSpecifierToPath := m2 }
        match buildMap doc.idToSpecifier with
        | .error _ => st2
        | .ok m3 => { st2 with idToSpecifier := m3 }

/-- State of the session resolver's mutual-exclusion lock (src/unnamed/part_004
lines 188-212): the `locked` flag and the queue of waiters. The two competing
`resolve()` tasks are named by a boolean. -/
structure LockState where
  locked : Bool
  queue : List Bool
deriving DecidableEq, Repr

/-- Embedding of `Lock.acquire` (src/unnamed/part_004 lines 192-200): when
unlocked, take the lock and proceed (`true`); when locked, enqueue and wait
(`false`). -/
def lockAcquire (l : LockState) (t : Bool) : LockState × Bool :=
  if l.locked then ({ l with queue := l.queue ++ [t] }, false)
  else ({ locked := true, queue := l.queue }, true)

/-- Embedding of `Lock.release` (src/unnamed/part_004 lines 202-211): wake the
first waiter if any (the lock stays held and ownership transfers), otherwise
clear the `locked` flag. -/
def lockRelease (l : LockState) : LockState × Option Bool :=
  match l.queue with
  | t :: rest => ({ l with queue := rest }, some t)
  | [] => ({ locked := false, queue := [] }, none)

/-- Phase of one `resolve()` task: before `acquire`, parked in the queue,
inside the lock-guarded region (the external invocation in flight), or done. -/
inductive Phase
  | start
  | waiting
  | critical
  | done
deriving DecidableEq, Repr

/-- Cooperative system state: the lock plus the phase of each of the two
tasks. -/
structure SysState where
  lock : LockState
  pcA : Phase
  pcB : Phase
deriving DecidableEq, Repr

/-- Phase of the task named by a boolean. -/
def getPc (s : SysState) (t : Bool) : Phase :=
  if t then s.pcB else s.pcA

/-- Replace the phase of the task named by a boolean. -/
def setPc (s : SysState) (t : Bool) (p : Phase) : SysState :=
  if t then { s with pcB := p } else { s with pcA := p }

/-- Initial system state: lock free, both tasks about to call `resolve()`. -/
def initSys : SysState :=
  { lock := { locked := false, queue := [] }, pcA := Phase.start, pcB := Phase.start }

/-- Cooperative small-step relation over the two `resolve()` tasks: a task at
its acquire point runs `Lock.acquire` and either enters the guarded region or
parks; a task in the guarded region finishes its invocation and runs
`Lock.release`, which may transfer the lock to the first waiter. -/
inductive LockStep : SysState → SysState → Prop
  | acquire (s : SysState) (t : Bool) (h : getPc s t = Phase.start) :
      LockStep s
        (setPc { s with lock := (lockAcquire s.lock t).1 } t
          (if (lockAcquire s.lock t).2 then Phase.critical else Phase.waiting))
  | release (s : SysState) (t : Bool) (h : getPc s t = Phase.critical) :
      LockStep s
        (match (lockRelease s.lock).2 with
         | some t2 => setPc (setPc { s with lock := (lockRelease s.lock).1 } t Phase.done)
             t2 Phase.critical
         | none => setPc { s with lock := (lockRelease s.lock).1 } t Phase.done)

/-- Reachability from the initial system state. -/
def SysReachable (s : SysState) : Prop :=
  Relation.ReflTransGen LockStep initSys s

/-- Number of tasks currently inside the lock-guarded region. -/
def critCount (s : SysState) : Nat :=
  (if s.pcA = Phase.critical then 1 else 0) + (if s.pcB = Phase.critical then 1 else 0)

/-- Inductive invariant of the lock: at most one task in the guarded region,
an unlocked lock means nobody is inside and nobody queued, queued tasks are
parked, and no task is queued twice. -/
def LockInv (s : SysState) : Prop :=
  critCount s ≤ 1 ∧
  (s.lock.locked = false → critCount s = 0 ∧ s.lock.queue = []) ∧
  (∀ t ∈ s.lock.queue, getPc s t = Phase.waiting) ∧
  s.lock.queue.Nodup

/-- The `Module` value a snapshot entry is stored as by ingestion. -/
def ingestValue (redirects : List (String × String)) : RawModule → Module
  | .esm info => Module.esm (transformEsmModule info redirects)
  | .npm s p => Module.npm s p
  | .node s n => Module.node s n
  | .err s e => Module.err s e

/-- Keys of the modules cache, in insertion order. -/
def moduleKeys (st : ResolverState) : List String :=
  st.modules.map (fun kv => kv.1)

/-- Dependency edge of the cached graph: `b` is a dependency specifier of the
esm record cached under `a`. -/
def DepEdge (st : ResolverState) (a b : String) : Prop :=
  ∃ info, alookup a st.modules = some (Module.esm info) ∧
    b ∈ info.dependencies.map (fun d => d.specifier)

/-- Reachability along dependency edges of the cached graph. -/
def Reach (st : ResolverState) (a b : String) : Prop :=
  Relation.ReflTransGen (DepEdge st) a b

/-- A cached graph is closed when every dependency specifier of every cached
esm record is itself a cache key (which is what one snapshot ingestion
produces, since a snapshot carries the whole transitive closure). -/
def ClosedGraph (st : ResolverState) : Prop :=
  ∀ a b, DepEdge st a b → b ∈ moduleKeys st

/-- Count of cache keys not yet seen; the decreasing measure of the walk. -/
def unseenCount (st : ResolverState) (seen : List String) : Nat :=
  ((moduleKeys st).filter (fun k => k ∉ seen)).length

/-- Oracle for the C1 counterexample: inspecting "x" succeeds with a snapshot
whose modules array lacks a record for the canonical specifier "x". -/
def envC1 : Env := fun id =>
  if id = "x" then some { redirects := [], roots := ["x"], modules := [] } else none

/-- Small esm record builder used by concrete test graphs. -/
def mkEsm (specifier : String) (size : Nat) (deps : List String) : EsmResolvedInfo :=
  { localPath := "/local/" ++ specifier
    size := size
    mediaType := DenoMediaType.typeScript
    specifier := specifier
    dependencies := deps.map (fun d => { specifier := d, codeSpecifier := d }) }

/-- Oracle for the C3 counterexample: two different root ids whose snapshots
both carry a record for the canonical specifier "s", with different sizes. -/
def envC3 : Env := fun id =>
  if id = "a" then
    some { redirects := [], roots := ["a"], modules := [RawModule.esm (mkEsm "s" 1 [])] }
  else if id = "b" then
    some { redirects := [], roots := ["b"], modules := [RawModule.esm (mkEsm "s" 2 [])] }
  else none

/-- Oracle for the C6 witness: inspecting "w" succeeds and yields a record for
its canonical specifier. -/
def envC6 : Env := fun id =>
  if id = "w" then
    some { redirects := [], roots := ["w"], modules := [RawModule.esm (mkEsm "w" 1 [])] }
  else none

/-- Concrete cyclic cached graph for the C7 walk: A and B depend on each
other, and A also depends on the dangling specifier "bad" that no oracle can
resolve. -/
def stCyclic : ResolverState :=
  { modules :=
      [("A", Module.esm (transformEsmModule (mkEsm "A" 1 ["B", "bad"]) [])),
       ("B", Module.esm (transformEsmModule (mkEsm "B" 1 ["A"]) []))]
    idToSpecifierCache := [] }

/-- Oracle that fails every invocation. -/
def envFail : Env := fun _ => none

/-- Concrete cyclic cached graph without dangling dependencies, used by the
C7 closed-graph conjuncts: A and B depend on each other. -/
def stAB : ResolverState :=
  { modules :=
      [("A", Module.esm (transformEsmModule (mkEsm "A" 1 ["B"]) [])),
       ("B", Module.esm (transformEsmModule (mkEsm "B" 1 ["A"]) []))]
    idToSpecifierCache := [] }

/-- Transformed importer record used by the C5 witness: one dependency entry
mapping the relative path "./dep" to the canonical specifier "dep-canon". -/
def infoC5 : ResolvedInfo :=
  { localPath := "/i"
    size := 1
    mediaType := DenoMediaType.typeScript
    specifier := "imp"
    dependencies := [{ relativePath := "./dep", specifier := "dep-canon" }] }

/-- Resolver state used by the C5 witness: the importer "imp" is cached. -/
def stC5 : ResolverState :=
  { modules := [("imp", Module.esm infoC5)]
    idToSpecifierCache := [] }

/-- Session esm record used by the C9 counterexample document. -/
def sessionInfoP : SessionEsmInfo :=
  { localPath := "/p"
    size := 1
    mediaType := DenoMediaType.typeScript
    specifier := "s"
    dependencies := [] }

/-- Corrupt parsed cache document for the C9 counterexample: a well-formed
esmModules array followed by a non-iterable codeSpecifierToPath field. -/
def badCacheDoc : CacheDoc :=
  { esmModules := MapField.pairs [("/p", sessionInfoP)]
    codeSpecifierToPath := MapField.invalid
    idToSpecifier := MapField.absent }

theorem alookup_append (m l : List (String × α)) (k : String) :
    alookup k (m ++ l) =
      match alookup k m with
      | some v => some v
      | none => alookup k l := by
  induction m with
  | nil => simp [alookup]
  | cons kv t ih =>
    obtain ⟨k1, v1⟩ := kv
    by_cases h : k1 = k <;> simp [alookup, h, ih]

theorem alookup_map_overwrite (m : List (String × α)) (k k1 : String) (v : α)
    (hne : k1 ≠ k) :
    alookup k (m.map (fun kv => if kv.1 = k1 then (k1, v) else kv)) = alookup k m := by
  induction m with
  | nil => rfl
  | cons kv t ih =>
    obtain ⟨a, b⟩ := kv
    show alookup k ((if a = k1 then (k1, v) else (a, b)) ::
        t.map (fun kv => if kv.1 = k1 then (k1, v) else kv)) = alookup k ((a, b) :: t)
    by_cases ha : a = k1
    · subst ha
      rw [if_pos rfl]
      simp [alookup, hne, ih]
    · rw [if_neg ha]
      by_cases hk : a = k <;> simp [alookup, hk, ih]

theorem alookup_map_overwrite_self (m : List (String × α)) (k : String) (v : α)
    (h : (alookup k m).isSome = true) :
    alookup k (m.map (fun kv => if kv.1 = k then (k, v) else kv)) = some v := by
  induction m with
  | nil => simp [alookup] at h
  | cons kv t ih =>
    obtain ⟨a, b⟩ := kv
    show alookup k ((if a = k then (k, v) else (a, b)) ::
        t.map (fun kv => if kv.1 = k then (k, v) else kv)) = some v
    by_cases ha : a = k
    · subst ha
      rw [if_pos rfl]
      simp [alookup]
    · rw [if_neg ha]
      have h1 : (alookup k t).isSome = true := by
        simpa [alookup, ha] using h
      simpa [alookup, ha] using ih h1

theorem alookup_mapSet_self (m : List (String × α)) (k : String) (v : α) :
    alookup k (mapSet m k v) = some v := by
  unfold mapSet
  by_cases h : (alookup k m).isSome
  · rw [if_pos h]
    exact alookup_map_overwrite_self m k v h
  · rw [if_neg h, alookup_append]
    rcases hm : alookup k m with _ | w
    · simp [alookup]
    · simp [hm] at h

theorem alookup_mapSet_ne (m : List (String × α)) (k k1 : String) (v : α)
    (hne : k1 ≠ k) :
    alookup k (mapSet m k1 v) = alookup k m := by
  unfold mapSet
  by_cases h : (alookup k1 m).isSome
  · rw [if_pos h]
    exact alookup_map_overwrite m k k1 v hne
  · rw [if_neg h, alookup_append]
    rcases hm : alookup k m with _ | w
    · simp [alookup, hne]
    · simp

theorem alookup_mapSet_isSome (m : List (String × α)) (k k1 : String) (v : α)
    (h : (alookup k m).isSome = true) :
    (alookup k (mapSet m k1 v)).isSome = true := by
  by_cases hk : k1 = k
  · subst hk
    simp [alookup_mapSet_self]
  · rwa [alookup_mapSet_ne m k k1 v hk]

theorem consHead_ne_nil (c : Char) (l : List (List Char)) : consHead c l ≠ [] := by
  cases l <;> simp [consHead]

theorem splitChar_ne_nil (sep : Char) (xs : List Char) : splitChar sep xs ≠ [] := by
  induction xs with
  | nil => simp [splitChar]
  | cons c rest ih =>
    by_cases h : c = sep
    · simp [splitChar, h]
    · simp only [splitChar, if_neg h]
      exact consHead_ne_nil c _

theorem splitChar_of_not_mem (sep : Char) (xs : List Char) (h : sep ∉ xs) :
    splitChar sep xs = [xs] := by
  induction xs with
  | nil => simp [splitChar]
  | cons c rest ih =>
    have hc : ¬ c = sep := fun hc => h (by simp [hc])
    have hr : sep ∉ rest := fun hr => h (by simp [hr])
    simp [splitChar, hc, ih hr, consHead]

theorem splitChar_append (sep : Char) (a b : List Char) (h : sep ∉ a) :
    splitChar sep (a ++ sep :: b) = a :: splitChar sep b := by
  induction a with
  | nil => simp [splitChar]
  | cons c a1 ih =>
    have hc : ¬ c = sep := fun hc => h (by simp [hc])
    have ha : sep ∉ a1 := fun hr => h (by simp [hr])
    simp [splitChar, hc, ih ha, consHead]

theorem joinChar_splitChar (sep : Char) (b : List Char) :
    joinChar sep (splitChar sep b) = b := by
  induction b with
  | nil => simp [splitChar, joinChar]
  | cons c rest ih =>
    by_cases h : c = sep
    · subst h
      rcases hs : splitChar c rest with _ | ⟨y, t⟩
      · exact absurd hs (splitChar_ne_nil c rest)
      · have hsplit : splitChar c (c :: rest) = [] :: y :: t := by
          simp [splitChar, hs]
        rw [hsplit]
        rw [hs] at ih
        simp [joinChar, ih]
    · rcases hs : splitChar sep rest with _ | ⟨y, t⟩
      · exact absurd hs (splitChar_ne_nil sep rest)
      · rw [hs] at ih
        rcases t with _ | ⟨z, t1⟩
        · simp [splitChar, h, hs, consHead, joinChar] at ih ⊢
          exact ih
        · simp [splitChar, h, hs, consHead, joinChar] at ih ⊢
          rw [ih]

theorem splitCC_ne_nil (xs : List Char) : splitCC xs ≠ [] := by
  induction xs using splitCC.induct with
  | case1 => simp [splitCC]
  | case2 c => simp [splitCC]
  | case3 c1 c2 rest hcc ih => simp [splitCC, hcc]
  | case4 c1 c2 rest hcc ih =>
    simp only [splitCC, if_neg hcc]
    exact consHead_ne_nil c1 _

theorem splitCC_of_not_mem (xs : List Char) (h : ':' ∉ xs) : splitCC xs = [xs] := by
  induction xs using splitCC.induct with
  | case1 => simp [splitCC]
  | case2 c => simp [splitCC]
  | case3 c1 c2 rest hcc ih =>
    exact absurd (by simp [hcc.1]) h
  | case4 c1 c2 rest hcc ih =>
    have h2 : ':' ∉ c2 :: rest := fun hm => h (by simp [hm])
    have h1 : ¬ c1 = ':' := fun hc => h (by simp [hc])
    simp only [splitCC, if_neg hcc, ih h2, consHead]

theorem splitCC_append (a b : List Char) (h : ':' ∉ a) :
    splitCC (a ++ ':' :: ':' :: b) = a :: splitCC b := by
  induction a with
  | nil => simp [splitCC]
  | cons c a1 ih =>
    have hc : ¬ c = ':' := fun hc => h (by simp [hc])
    have ha : ':' ∉ a1 := fun hr => h (by simp [hr])
    rcases a1 with _ | ⟨c2, a2⟩
    · simp [splitCC, hc]
      simp [consHead]
    · simp only [List.cons_append] at ih ⊢
      simp only [splitCC, if_neg (by simp [hc] : ¬ (c = ':' ∧ c2 = ':')), ih ha, consHead]

theorem isPrefixOf_iff_exists (p s : List Char) :
    p.isPrefixOf s = true ↔ ∃ t, s = p ++ t := by
  induction p generalizing s with
  | nil => simp [List.isPrefixOf]
  | cons c p1 ih =>
    rcases s with _ | ⟨d, s1⟩
    · simp [List.isPrefixOf]
    · simp only [List.isPrefixOf, Bool.and_eq_true, beq_iff_eq, ih, List.cons_append,
        List.cons.injEq]
      constructor
      · rintro ⟨hcd, t, ht⟩
        exact ⟨t, hcd.symm, ht⟩
      · rintro ⟨t, hcd, ht⟩
        exact ⟨hcd.symm, t, ht⟩

/-- C2 (amended): the three-field specifier codec round-trips exactly when the
canonical specifier and the local path contain no colon character — the codec
performs no escaping, so values containing the `::` delimiter are corrupted —
and the codec's `parseDenoSpecifier` itself never returns null: the sentinel
test is the separate guard `isDenoSpecifier`, which accepts precisely the
strings that start with the `\0deno` sentinel. -/
theorem specifier_codec_roundtrip_amended :
    (∀ (m : DenoMediaType) (c l : List Char), ':' ∉ c → ':' ∉ l →
        parseDenoSpecifier (toDenoSpecifier m c l) =
          { loader := some (mediaTypeChars m), id := some c, resolved := some l }) ∧
    (∀ (m : DenoMediaType) (c l : List Char),
        isDenoSpecifier (toDenoSpecifier m c l) = true) ∧
    (∀ s : List Char, isDenoSpecifier s = true ↔ ∃ t, s = denoSentinel ++ t) := by
  have hsent : ':' ∉ denoSentinel := by decide
  have hmt : ∀ m : DenoMediaType, ':' ∉ mediaTypeChars m := by
    intro m
    cases m <;> decide
  refine ⟨?_, ?_, ?_⟩
  · intro m c l hc hl
    have hsplit : splitCC (toDenoSpecifier m c l) =
        [denoSentinel, mediaTypeChars m, c, l] := by
      unfold toDenoSpecifier
      have e2 : strChars "::" ++ (mediaTypeChars m ++ (strChars "::" ++ (c ++ (strChars "::" ++ l)))) =
          ':' :: ':' :: (mediaTypeChars m ++ ':' :: ':' :: (c ++ ':' :: ':' :: l)) := by
        simp [strChars]
      rw [List.append_assoc, List.append_assoc, List.append_assoc, List.append_assoc,
        List.append_assoc, e2]
      rw [splitCC_append _ _ hsent, splitCC_append _ _ (hmt m), splitCC_append _ _ hc,
        splitCC_of_not_mem _ hl]
    simp [parseDenoSpecifier, hsplit]
  · intro m c l
    have : ∃ t, toDenoSpecifier m c l = denoSentinel ++ t := by
      refine ⟨strChars "::" ++ mediaTypeChars m ++ strChars "::" ++ c ++ strChars "::" ++ l, ?_⟩
      unfold toDenoSpecifier
      simp [List.append_assoc]
    exact (isPrefixOf_iff_exists _ _).2 this
  · intro s
    exact isPrefixOf_iff_exists denoSentinel s

/-- Witness for C2 (amended): a concrete colon-free round trip. -/
theorem specifier_codec_roundtrip_amended_witness :
    parseDenoSpecifier (toDenoSpecifier DenoMediaType.jsx (strChars "file-a") (strChars "/x/y")) =
      { loader := some (strChars "JSX"), id := some (strChars "file-a"),
        resolved := some (strChars "/x/y") } :=
  specifier_codec_roundtrip_amended.1 DenoMediaType.jsx (strChars "file-a") (strChars "/x/y")
    (by decide) (by decide)

/-- Counterexample for C2 as stated: when the canonical specifier contains the
codec's `::` delimiter, the round trip does not return the original triple
(the unescaped delimiter shifts every later field). -/
theorem specifier_codec_roundtrip_counterexample :
    parseDenoSpecifier (toDenoSpecifier DenoMediaType.typeScript (strChars "a::b") (strChars "x")) ≠
      { loader := some (strChars "TypeScript"), id := some (strChars "a::b"),
        resolved := some (strChars "x") } := by
  decide

/-- C4 (confirmed): the foreign-package namespace translation strips the
registry marker `npm:/` (which the spec writes `pkg:/`) and exactly the
trailing `@version` attached to the unscoped name segment, preserving scope
and subpath, for every version string made of characters other than a slash.
The name has no slash or at-sign and a scope segment has no slash, which is
the grammar of package names. -/
theorem npm_namespace_translation :
    ∀ (nm ver sub scope : List Char), nm ≠ [] → '@' ∉ nm → '/' ∉ nm → '/' ∉ ver →
      '/' ∉ scope →
      (npmSpecifierToNpmId (strChars "npm:/" ++ (nm ++ '@' :: ver)) = some nm ∧
       npmSpecifierToNpmId (strChars "npm:/" ++ ((nm ++ '@' :: ver) ++ '/' :: sub)) =
         some (nm ++ '/' :: sub) ∧
       npmSpecifierToNpmId (strChars "npm:/" ++ (('@' :: scope) ++ '/' :: (nm ++ '@' :: ver))) =
         some (('@' :: scope) ++ '/' :: nm) ∧
       npmSpecifierToNpmId
           (strChars "npm:/" ++ (('@' :: scope) ++ '/' :: ((nm ++ '@' :: ver) ++ '/' :: sub))) =
         some ((('@' :: scope) ++ '/' :: nm) ++ '/' :: sub)) := by
  intro nm ver sub scope hne hat hnm hver hscope
  have hdrop : ∀ x : List Char, (strChars "npm:/" ++ x).drop 5 = x := by
    intro x
    have h5 : (strChars "npm:/").length = 5 := rfl
    rw [← h5, List.drop_left]
  obtain ⟨n0, nm1, rfl⟩ : ∃ c t, nm = c :: t := by
    rcases nm with _ | ⟨c, t⟩
    · exact absurd rfl hne
    · exact ⟨c, t, rfl⟩
  have hn0 : ¬ n0 = '@' := fun h => hat (by simp [h])
  have hfull : '/' ∉ (n0 :: nm1) ++ '@' :: ver := by
    intro hm
    rcases List.mem_append.mp hm with h | h
    · exact hnm h
    · rcases List.mem_cons.mp h with h | h
      · exact absurd h.symm (by decide)
      · exact hver h
  have hsplitFull : splitChar '/' (n0 :: (nm1 ++ '@' :: ver)) = [n0 :: (nm1 ++ '@' :: ver)] :=
    splitChar_of_not_mem _ _ hfull
  have hAt : splitChar '@' (n0 :: (nm1 ++ '@' :: ver)) = (n0 :: nm1) :: splitChar '@' ver :=
    splitChar_append _ _ _ hat
  have hscope2 : '/' ∉ '@' :: scope := by
    intro hm
    rcases List.mem_cons.mp hm with h | h
    · exact absurd h (by decide)
    · exact hscope h
  rcases hq : splitChar '/' sub with _ | ⟨q, qs⟩
  · exact absurd hq (splitChar_ne_nil '/' sub)
  have hjoin : joinChar '/' (q :: qs) = sub := by
    rw [← hq]
    exact joinChar_splitChar '/' sub
  refine ⟨?_, ?_, ?_, ?_⟩
  · show npmSpecifierToNpmId (strChars "npm:/" ++ (n0 :: (nm1 ++ '@' :: ver))) =
      some (n0 :: nm1)
    simp only [npmSpecifierToNpmId]
    rw [hdrop, hsplitFull]
    simp [splitHead, hn0, hAt]
  · have hparts2 : splitChar '/' (n0 :: ((nm1 ++ '@' :: ver) ++ '/' :: sub)) =
        (n0 :: (nm1 ++ '@' :: ver)) :: q :: qs := by
      have h1 := splitChar_append '/' (n0 :: (nm1 ++ '@' :: ver)) sub hfull
      rw [hq] at h1
      exact h1
    show npmSpecifierToNpmId (strChars "npm:/" ++ (n0 :: ((nm1 ++ '@' :: ver) ++ '/' :: sub))) =
      some (n0 :: (nm1 ++ '/' :: sub))
    simp only [npmSpecifierToNpmId]
    rw [hdrop, hparts2]
    simp [splitHead, hn0, hAt, hjoin]
  · have hparts3 : splitChar '/' ('@' :: (scope ++ '/' :: (n0 :: (nm1 ++ '@' :: ver)))) =
        ('@' :: scope) :: [n0 :: (nm1 ++ '@' :: ver)] := by
      have h0 := splitChar_append '/' ('@' :: scope) (n0 :: (nm1 ++ '@' :: ver)) hscope2
      rw [hsplitFull] at h0
      exact h0
    show npmSpecifierToNpmId
        (strChars "npm:/" ++ ('@' :: (scope ++ '/' :: (n0 :: (nm1 ++ '@' :: ver))))) =
      some ('@' :: (scope ++ '/' :: (n0 :: nm1)))
    simp only [npmSpecifierToNpmId]
    rw [hdrop, hparts3]
    simp [splitHead, hAt]
  · have h1 := splitChar_append '/' (n0 :: (nm1 ++ '@' :: ver)) sub hfull
    rw [hq] at h1
    have hparts4 : splitChar '/'
        ('@' :: (scope ++ '/' :: (n0 :: ((nm1 ++ '@' :: ver) ++ '/' :: sub)))) =
        ('@' :: scope) :: (n0 :: (nm1 ++ '@' :: ver)) :: q :: qs := by
      have h0 := splitChar_append '/' ('@' :: scope)
        (n0 :: ((nm1 ++ '@' :: ver) ++ '/' :: sub)) hscope2
      rw [show splitChar '/' (n0 :: ((nm1 ++ '@' :: ver) ++ '/' :: sub)) =
        (n0 :: (nm1 ++ '@' :: ver)) :: q :: qs from h1] at h0
      exact h0
    show npmSpecifierToNpmId
        (strChars "npm:/" ++ ('@' :: (scope ++ '/' :: (n0 :: ((nm1 ++ '@' :: ver) ++ '/' :: sub))))) =
      some ('@' :: ((scope ++ '/' :: (n0 :: nm1)) ++ '/' :: sub))
    simp only [npmSpecifierToNpmId]
    rw [hdrop, hparts4]
    simp [splitHead, hAt, hjoin]

/-- Witness for C4: the spec's own concrete examples, with the code's actual
registry marker. -/
theorem npm_namespace_translation_witness :
    npmSpecifierToNpmId (strChars "npm:/react@18.2.0") = some (strChars "react") ∧
    npmSpecifierToNpmId (strChars "npm:/lodash@^4.17.21") = some (strChars "lodash") ∧
    npmSpecifierToNpmId (strChars "npm:/@scope/name@7.22.0/lib/index.js") =
      some (strChars "@scope/name/lib/index.js") := by
  have h1 := npm_namespace_translation (strChars "react") (strChars "18.2.0") [] []
    (by decide) (by decide) (by decide) (by decide) (by decide)
  have h2 := npm_namespace_translation (strChars "lodash") (strChars "^4.17.21") [] []
    (by decide) (by decide) (by decide) (by decide) (by decide)
  have h3 := npm_namespace_translation (strChars "name") (strChars "7.22.0")
    (strChars "lib/index.js") (strChars "scope")
    (by decide) (by decide) (by decide) (by decide) (by decide)
  exact ⟨h1.1, h2.1, h3.2.2.2⟩

theorem truthyGet_mapSet_self (m : List (String × Option String)) (k : String)
    (v : Option String) :
    truthyGet (mapSet m k v) k =
      match v with
      | some s => if s = "" then none else some s
      | none => none := by
  unfold truthyGet
  rw [alookup_mapSet_self]
  rcases v with _ | s <;> rfl

theorem ingestModule_eq_mapSet (ms : List (String × Module))
    (red : List (String × String)) (m : RawModule) :
    ingestModule ms red m = mapSet ms (RawModule.spec m) (ingestValue red m) := by
  cases m <;> rfl

theorem alookup_foldl_ingest (l : List RawModule) (red : List (String × String))
    (init : List (String × Module)) (k : String) :
    alookup k (l.foldl (fun ms m => ingestModule ms red m) init) =
      match l.reverse.find? (fun m => RawModule.spec m == k) with
      | some m => some (ingestValue red m)
      | none => alookup k init := by
  induction l generalizing init with
  | nil => simp
  | cons m0 t ih =>
    simp only [List.foldl_cons, List.reverse_cons]
    rw [ih, List.find?_append]
    rcases hf : t.reverse.find? (fun m => RawModule.spec m == k) with _ | m1
    · simp only [Option.none_or]
      by_cases hm : RawModule.spec m0 = k
      · rw [List.find?_cons_of_pos _ (by simp [hm])]
        simp [ingestModule_eq_mapSet, hm, alookup_mapSet_self]
      · rw [List.find?_cons_of_neg _ (by simp [hm]), List.find?_nil]
        simp [ingestModule_eq_mapSet, alookup_mapSet_ne _ _ _ _ hm]
    · simp

theorem resolve_state_cases (env : Env) (st : ResolverState) (id : String)
    (imp : Option String) :
    (resolve env st id imp).state = st ∨
    ∃ info, env id = some info ∧ (resolve env st id imp).state = callDenoInfo st id info := by
  rcases imp with _ | i
  · rcases hm : truthyGet st.idToSpecifierCache id with _ | c
    · rcases he : env id with _ | info
      · left
        simp [resolve, hm, he]
      · right
        refine ⟨info, rfl, ?_⟩
        simp only [resolve, hm, he]
        rcases ht : truthyGet (callDenoInfo st id info).idToSpecifierCache id with _ | s <;>
          simp [ht]
    · left
      simp [resolve, hm]
  · rcases hl : alookup i st.modules with _ | m
    · left
      simp [resolve, hl]
    · rcases m with info | ⟨s, p⟩ | ⟨s, n⟩ | ⟨s, e⟩
      · left
        simp only [resolve, hl]
        rcases hf : info.dependencies.find? (fun dep => dep.relativePath = id) with _ | d <;>
          simp [hf]
      all_goals (left; simp [resolve, hl])

/-- C5 (confirmed): with an importer whose cached record is an esm module, a
nested resolution searches the importer's fixed dependency list — returning
the matching entry's resolved specifier, or null when absent — and performs
zero external invoker calls; an absent or non-esm importer record raises the
internal-consistency faults instead. -/
theorem resolve_nested_import :
    ∀ (env : Env) (st : ResolverState) (id imp : String),
      (∀ info, alookup imp st.modules = some (Module.esm info) →
        resolve env st id (some imp) =
          { result := Except.ok ((info.dependencies.find?
              (fun d => d.relativePath = id)).map (fun d => d.specifier)),
            state := st, invokerCalls := 0 }) ∧
      (alookup imp st.modules = none →
        resolve env st id (some imp) =
          { result := Except.error (ResolveErr.importerNotFound imp),
            state := st, invokerCalls := 0 }) ∧
      (∀ m, alookup imp st.modules = some m → (∀ info, m ≠ Module.esm info) →
        resolve env st id (some imp) =
          { result := Except.error (ResolveErr.importerNotEsm imp),
            state := st, invokerCalls := 0 }) := by
  intro env st id imp
  refine ⟨?_, ?_, ?_⟩
  · intro info h
    simp only [resolve, h]
    rcases hf : info.dependencies.find? (fun d => d.relativePath = id) with _ | d <;>
      simp [hf]
  · intro h
    simp [resolve, h]
  · intro m h hne
    rcases m with info | ⟨s, p⟩ | ⟨s, n⟩ | ⟨s, e⟩
    · exact absurd rfl (hne info)
    all_goals simp [resolve, h]

/-- Witness for C5: a concrete importer with one dependency entry resolves it
with zero invoker calls. -/
theorem resolve_nested_import_witness :
    resolve envFail stC5 "./dep" (some "imp") =
      { result := Except.ok (some "dep-canon"), state := stC5, invokerCalls := 0 } := by
  have h := (resolve_nested_import envFail stC5 "./dep" "imp").1 infoC5 (by decide)
  rw [h]
  decide

/-- C6 (confirmed): a root resolution of an unmemoized id performs exactly one
external invoker call, and when it succeeds, repeating it performs zero
further calls and returns the same canonical specifier. -/
theorem resolve_root_memoization :
    ∀ (env : Env) (st : ResolverState) (id : String),
      truthyGet st.idToSpecifierCache id = none →
      (resolve env st id none).invokerCalls = 1 ∧
      ∀ c, (resolve env st id none).result = Except.ok (some c) →
        resolve env (resolve env st id none).state id none =
          { result := Except.ok (some c), state := (resolve env st id none).state,
            invokerCalls := 0 } := by
  intro env st id h
  rcases he : env id with _ | info
  · refine ⟨by simp [resolve, h, he], ?_⟩
    intro c hc
    simp [resolve, h, he] at hc
  · rcases ht : truthyGet (callDenoInfo st id info).idToSpecifierCache id with _ | s
    · refine ⟨by simp [resolve, h, he, ht], ?_⟩
      intro c hc
      simp [resolve, h, he, ht] at hc
    · refine ⟨by simp [resolve, h, he, ht], ?_⟩
      intro c hc
      have hout : resolve env st id none =
          { result := Except.ok (some s), state := callDenoInfo st id info,
            invokerCalls := 1 } := by
        simp [resolve, h, he, ht]
      rw [hout] at hc ⊢
      simp only at hc
      have hsc : s = c := by
        simpa using hc
      subst hsc
      simp [resolve, ht]

/-- Witness for C6: a concrete fresh root resolution calls the invoker once
and is answered from the memo on repetition. -/
theorem resolve_root_memoization_witness :
    (resolve envC6 initialResolverState "w" none).invokerCalls = 1 ∧
    resolve envC6 (resolve envC6 initialResolverState "w" none).state "w" none =
      { result := Except.ok (some "w"),
        state := (resolve envC6 initialResolverState "w" none).state,
        invokerCalls := 0 } := by
  have h := resolve_root_memoization envC6 initialResolverState "w" (by decide)
  refine ⟨h.1, h.2 "w" (by decide)⟩

/-- C1 (amended): a root resolution whose external inspection succeeds and
whose snapshot is ingested returns the computed canonical specifier without
consulting the module cache at all; it fails (the error surfaced as a
resolution failure) precisely when the memo entry is untruthy — an empty
roots array or an empty-string canonical specifier — not when the module
record for the canonical specifier is missing. -/
theorem resolve_root_no_record_amended :
    ∀ (env : Env) (st : ResolverState) (id : String) (info : DenoInfoJsonV1),
      truthyGet st.idToSpecifierCache id = none → env id = some info →
      resolve env st id none =
        { result :=
            match info.roots.head?.map (fun r => (alookup r info.redirects).getD r) with
            | some c =>
              if c = "" then Except.error (ResolveErr.failedToResolve id)
              else Except.ok (some c)
            | none => Except.error (ResolveErr.failedToResolve id),
          state := callDenoInfo st id info,
          invokerCalls := 1 } := by
  intro env st id info h he
  have ht0 : (callDenoInfo st id info).idToSpecifierCache =
      mapSet st.idToSpecifierCache id
        (info.roots.head?.map (fun r => (alookup r info.redirects).getD r)) := rfl
  rcases hr : info.roots.head?.map (fun r => (alookup r info.redirects).getD r) with _ | c
  · have ht : truthyGet (callDenoInfo st id info).idToSpecifierCache id = none := by
      rw [ht0, hr, truthyGet_mapSet_self]
    simp [resolve, h, he, ht, hr]
  · by_cases hc : c = ""
    · have ht : truthyGet (callDenoInfo st id info).idToSpecifierCache id = none := by
        rw [ht0, hr, truthyGet_mapSet_self]
        simp [hc]
      simp [resolve, h, he, ht, hr, hc]
    · have ht : truthyGet (callDenoInfo st id info).idToSpecifierCache id = some c := by
        rw [ht0, hr, truthyGet_mapSet_self]
        simp [hc]
      simp [resolve, h, he, ht, hr, hc]

/-- Witness for C1 (amended): a snapshot with root "x" and an empty modules
array still resolves to "x". -/
theorem resolve_root_no_record_amended_witness :
    resolve envC1 initialResolverState "x" none =
      { result := Except.ok (some "x"),
        state := callDenoInfo initialResolverState "x"
          { redirects := [], roots := ["x"], modules := [] },
        invokerCalls := 1 } := by
  have h := resolve_root_no_record_amended envC1 initialResolverState "x"
    { redirects := [], roots := ["x"], modules := [] } (by decide) (by decide)
  rw [h]
  decide

/-- Counterexample for C1 as stated: the inspection of "x" succeeds, the
snapshot is ingested, no module record exists for the canonical specifier
"x", and yet the resolution returns "x" instead of failing. -/
theorem resolve_root_no_record_counterexample :
    (resolve envC1 initialResolverState "x" none).result = Except.ok (some "x") ∧
    alookup "x" (resolve envC1 initialResolverState "x" none).state.modules = none := by
  decide

/-- C3 (amended): no resolver operation removes a cache entry — both the
module cache and the memo only grow — but the ingestion loop of callDenoInfo
stores each snapshot entry with an unconditional Map.set, so a later
ingestion that references an already-stored canonical specifier replaces the
stored record with the newly ingested one: after ingestion the cache holds
the record of the last snapshot entry carrying that specifier, falling back
to the previous record only when the snapshot does not mention it. -/
theorem cache_append_only_amended :
    (∀ (env : Env) (st : ResolverState) (id : String) (imp : Option String) (k : String),
       ((alookup k st.modules).isSome = true →
         (alookup k (resolve env st id imp).state.modules).isSome = true) ∧
       ((alookup k st.idToSpecifierCache).isSome = true →
         (alookup k (resolve env st id imp).state.idToSpecifierCache).isSome = true)) ∧
    (∀ (st : ResolverState) (id : String) (info : DenoInfoJsonV1) (k : String),
       alookup k (callDenoInfo st id info).modules =
         match info.modules.reverse.find? (fun m => RawModule.spec m == k) with
         | some m => some (ingestValue info.redirects m)
         | none => alookup k st.modules) := by
  have hchar : ∀ (st : ResolverState) (id : String) (info : DenoInfoJsonV1) (k : String),
      alookup k (callDenoInfo st id info).modules =
        match info.modules.reverse.find? (fun m => RawModule.spec m == k) with
        | some m => some (ingestValue info.redirects m)
        | none => alookup k st.modules := by
    intro st id info k
    show alookup k (info.modules.foldl (fun ms m => ingestModule ms info.redirects m)
      st.modules) = _
    exact alookup_foldl_ingest info.modules info.redirects st.modules k
  refine ⟨?_, hchar⟩
  intro env st id imp k
  rcases resolve_state_cases env st id imp with hst | ⟨info, _, hst⟩
  · rw [hst]
    exact ⟨fun h => h, fun h => h⟩
  · rw [hst]
    constructor
    · intro h
      rw [hchar st id info k]
      rcases hf : info.modules.reverse.find? (fun m => RawModule.spec m == k) with _ | m
      · exact h
      · rfl
    · intro h
      show (alookup k (mapSet st.idToSpecifierCache id
        (info.roots.head?.map (fun r => (alookup r info.redirects).getD r)))).isSome = true
      exact alookup_mapSet_isSome _ _ _ _ h

/-- Witness for C3 (amended): a concrete preserved entry and a concrete
ingestion-characterization instance. -/
theorem cache_append_only_amended_witness :
    (alookup "imp" (resolve envFail stC5 "zzz" none).state.modules).isSome = true ∧
    alookup "s" (callDenoInfo initialResolverState "a"
        { redirects := [], roots := ["a"], modules := [RawModule.esm (mkEsm "s" 1 [])] }).modules =
      some (Module.esm (transformEsmModule (mkEsm "s" 1 []) [])) := by
  constructor
  · exact (cache_append_only_amended.1 envFail stC5 "zzz" none "imp").1 (by decide)
  · have h := cache_append_only_amended.2 initialResolverState "a"
      { redirects := [], roots := ["a"], modules := [RawModule.esm (mkEsm "s" 1 [])] } "s"
    rw [h]
    decide

/-- Counterexample for C3 as stated: after resolving "a", the cache holds the
size-1 record for canonical specifier "s"; resolving "b" ingests a snapshot
that references "s" again and overwrites the stored record with the size-2
one. -/
theorem cache_overwrite_counterexample :
    alookup "s" (resolve envC3 initialResolverState "a" none).state.modules =
      some (Module.esm (transformEsmModule (mkEsm "s" 1 []) [])) ∧
    alookup "s" (resolve envC3
        (resolve envC3 initialResolverState "a" none).state "b" none).state.modules =
      some (Module.esm (transformEsmModule (mkEsm "s" 2 []) [])) ∧
    Module.esm (transformEsmModule (mkEsm "s" 1 []) []) ≠
      Module.esm (transformEsmModule (mkEsm "s" 2 []) []) := by
  decide

/-- C9 (amended): readCache never raises — every failure is swallowed — and a
missing or unparsable cache file leaves the resolver exactly at its prior
(cold-start) state; but the three maps are assigned sequentially inside the
single try/catch, so a wrongly-shaped file whose later field is non-iterable
leaves the earlier maps loaded: the state is a prefix of the file's maps, not
necessarily the cold-start state. -/
theorem readCache_recovery_amended :
    (∀ st : SessionState, readCache st CacheFile.missing = st ∧
       readCache st CacheFile.unparsable = st) ∧
    (∀ (st : SessionState) (l1 : List (String × SessionEsmInfo))
       (l2 l3 : List (String × String)),
       readCache st (CacheFile.parsed
           { esmModules := MapField.pairs l1, codeSpecifierToPath := MapField.pairs l2,
             idToSpecifier := MapField.pairs l3 }) =
         { esmModules := mapFromPairs l1, codeSpecifierToPath := mapFromPairs l2,
           idToSpecifier := mapFromPairs l3 }) ∧
    (∀ (st : SessionState) (f2 f3), readCache st (CacheFile.parsed
         { esmModules := MapField.invalid, codeSpecifierToPath := f2,
           idToSpecifier := f3 }) = st) ∧
    (∀ (st : SessionState) (l1 : List (String × SessionEsmInfo)) (f3),
       readCache st (CacheFile.parsed
           { esmModules := MapField.pairs l1, codeSpecifierToPath := MapField.invalid,
             idToSpecifier := f3 }) = { st with esmModules := mapFromPairs l1 }) := by
  refine ⟨fun st => ⟨rfl, rfl⟩, fun st l1 l2 l3 => rfl, fun st f2 f3 => rfl,
    fun st l1 f3 => rfl⟩

/-- Counterexample for C9 as stated: a corrupt (wrongly-shaped) cache file —
a valid esmModules array followed by a non-iterable field — is recovered
silently but leaves the esmModules map loaded, so the in-memory state is not
identical to a cold start. -/
theorem readCache_corrupt_counterexample :
    readCache coldSessionState (CacheFile.parsed badCacheDoc) ≠ coldSessionState := by
  decide

theorem lockInv_init : LockInv initSys := by
  refine ⟨by decide, by decide, ?_, by simp [initSys]⟩
  intro t ht
  simp [initSys] at ht

theorem lockInv_step (s s2 : SysState) (hinv : LockInv s) (hstep : LockStep s s2) :
    LockInv s2 := by
  obtain ⟨h1, h2, h3, h4⟩ := hinv
  cases hstep with
  | acquire t h =>
    cases hl : s.lock.locked with
    | true =>
      have hnotq : t ∉ s.lock.queue := by
        intro hq
        have := h3 t hq
        rw [h] at this
        exact absurd this (by decide)
      cases t with
      | false =>
        simp only [getPc, Bool.false_eq_true, if_false] at h
        simp only [lockAcquire, hl, if_true, setPc, Bool.false_eq_true, if_false]
        refine ⟨?_, ?_, ?_, ?_⟩
        · simp only [critCount, h1]
          simp only [critCount, h] at h1
          simpa using h1
        · intro hfalse
          simp [hl] at hfalse
        · intro u hu
          simp only [List.mem_append, List.mem_singleton] at hu
          rcases hu with hu | hu
          · have hw := h3 u hu
            cases u with
            | false => exact absurd hu hnotq
            | true => simpa [getPc] using hw
          · subst hu
            simp [getPc]
        · simp only []
          refine List.Nodup.append h4 (List.nodup_singleton _) ?_
          intro a ha hb
          simp only [List.mem_singleton] at hb
          subst hb
          exact hnotq ha
      | true =>
        simp only [getPc, if_true] at h
        simp only [lockAcquire, hl, if_true, setPc]
        refine ⟨?_, ?_, ?_, ?_⟩
        · simp only [critCount, h]
          simp only [critCount, h] at h1
          simpa using h1
        · intro hfalse
          simp [hl] at hfalse
        · intro u hu
          simp only [List.mem_append, List.mem_singleton] at hu
          rcases hu with hu | hu
          · have hw := h3 u hu
            cases u with
            | false => simpa [getPc] using hw
            | true => exact absurd hu hnotq
          · subst hu
            simp [getPc]
        · simp only []
          refine List.Nodup.append h4 (List.nodup_singleton _) ?_
          intro a ha hb
          simp only [List.mem_singleton] at hb
          subst hb
          exact hnotq ha
    | false =>
      obtain ⟨hc0, hq0⟩ := h2 hl
      have hA : s.pcA ≠ Phase.critical := by
        intro hA
        simp [critCount, hA] at hc0
      have hB : s.pcB ≠ Phase.critical := by
        intro hB
        simp [critCount, hB] at hc0
      cases t with
      | false =>
        simp only [lockAcquire, hl, Bool.false_eq_true, if_false, setPc]
        refine ⟨?_, ?_, ?_, ?_⟩
        · simp [critCount, hB]
        · intro hfalse
          simp at hfalse
        · intro u hu
          simp only at hu
          rw [hq0] at hu
          simp at hu
        · simp only []
          rw [hq0]
          exact List.nodup_nil
      | true =>
        simp only [lockAcquire, hl, Bool.false_eq_true, if_false, setPc, if_true]
        refine ⟨?_, ?_, ?_, ?_⟩
        · simp [critCount, hA]
        · intro hfalse
          simp at hfalse
        · intro u hu
          simp only at hu
          rw [hq0] at hu
          simp at hu
        · simp only []
          rw [hq0]
          exact List.nodup_nil
  | release t h =>
    have hlocked : s.lock.locked = true := by
      cases hlk : s.lock.locked with
      | true => rfl
      | false =>
        obtain ⟨hc0, _⟩ := h2 hlk
        cases t with
        | false =>
          simp only [getPc, Bool.false_eq_true, if_false] at h
          simp [critCount, h] at hc0
        | true =>
          simp only [getPc, if_true] at h
          simp [critCount, h] at hc0
    cases hq : s.lock.queue with
    | nil =>
      simp only [lockRelease, hq, setPc]
      cases t with
      | false =>
        simp only [getPc, Bool.false_eq_true, if_false] at h
        have hB : s.pcB ≠ Phase.critical := by
          intro hB
          simp [critCount, h, hB] at h1
        refine ⟨?_, ?_, ?_, ?_⟩
        · simp [critCount, hB]
        · intro _
          exact ⟨by simp [critCount, hB], rfl⟩
        · intro u hu
          simp at hu
        · exact List.nodup_nil
      | true =>
        simp only [getPc, if_true] at h
        have hA : s.pcA ≠ Phase.critical := by
          intro hA
          simp [critCount, h, hA] at h1
        refine ⟨?_, ?_, ?_, ?_⟩
        · simp [critCount, hA]
        · intro _
          exact ⟨by simp [critCount, hA], rfl⟩
        · intro u hu
          simp at hu
        · exact List.nodup_nil
    | cons t2 rest =>
      have ht2w : getPc s t2 = Phase.waiting := h3 t2 (by simp [hq])
      have ht2ne : t2 ≠ t := by
        intro heq
        rw [heq, h] at ht2w
        exact absurd ht2w (by decide)
      have ht2rest : t2 ∉ rest := by
        rw [hq] at h4
        exact (List.nodup_cons.mp h4).1
      have hrestnodup : rest.Nodup := by
        rw [hq] at h4
        exact (List.nodup_cons.mp h4).2
      simp only [lockRelease, hq, setPc]
      cases t with
      | false =>
        have ht2 : t2 = true := by
          cases t2 with
          | false => exact absurd rfl ht2ne
          | true => rfl
        subst ht2
        simp only [getPc, Bool.false_eq_true, if_false] at h
        simp only [getPc, if_true] at ht2w
        simp only [Bool.false_eq_true, if_false, if_true]
        refine ⟨?_, ?_, ?_, ?_⟩
        · simp [critCount]
        · intro hfalse
          simp only at hfalse
          rw [hlocked] at hfalse
          exact absurd hfalse (by decide)
        · intro u hu
          simp only at hu
          cases u with
          | false =>
            have hw := h3 false (by simp [hq, hu])
            simp only [getPc, Bool.false_eq_true, if_false] at hw
            rw [h] at hw
            exact absurd hw (by decide)
          | true => exact absurd hu ht2rest
        · exact hrestnodup
      | true =>
        have ht2 : t2 = false := by
          cases t2 with
          | false => rfl
          | true => exact absurd rfl ht2ne
        subst ht2
        simp only [getPc, if_true] at h
        simp only [getPc, Bool.false_eq_true, if_false] at ht2w
        simp only [Bool.false_eq_true, if_false, if_true]
        refine ⟨?_, ?_, ?_, ?_⟩
        · simp [critCount]
        · intro hfalse
          simp only at hfalse
          rw [hlocked] at hfalse
          exact absurd hfalse (by decide)
        · intro u hu
          simp only at hu
          cases u with
          | false => exact absurd hu ht2rest
          | true =>
            have hw := h3 true (by simp [hq, hu])
            simp only [getPc, if_true] at hw
            rw [h] at hw
            exact absurd hw (by decide)
        · exact hrestnodup

theorem lockInv_reachable (s : SysState) (hs : SysReachable s) : LockInv s := by
  induction hs with
  | refl => exact lockInv_init
  | tail _ hstep ih => exact lockInv_step _ _ ih hstep

/-- C8 (confirmed): in the cooperative interleaving model of the lock of
src/unnamed/part_004 — two resolve() tasks, each acquiring the lock, running
its external invocation inside the guarded region, and releasing — every
reachable system state has at most one task inside the guarded region: a
second call issued before the first completes parks in the queue and is only
resumed by the first one's release, so at most one external invoker
invocation is in flight at any instant. -/
theorem invoker_mutual_exclusion :
    ∀ s : SysState, SysReachable s →
      ¬ (s.pcA = Phase.critical ∧ s.pcB = Phase.critical) := by
  intro s hs hcontra
  obtain ⟨h1, _, _, _⟩ := lockInv_reachable s hs
  simp [critCount, hcontra.1, hcontra.2] at h1

/-- Witness for C8: the initial state is reachable and satisfies mutual
exclusion. -/
theorem invoker_mutual_exclusion_witness :
    ¬ (initSys.pcA = Phase.critical ∧ initSys.pcB = Phase.critical) :=
  invoker_mutual_exclusion initSys Relation.ReflTransGen.refl

theorem alookup_isSome_iff_mem {α : Type} (m : List (String × α)) (k : String) :
    (alookup k m).isSome = true ↔ k ∈ m.map (fun kv => kv.1) := by
  induction m with
  | nil => simp [alookup]
  | cons kv t ih =>
    obtain ⟨a, b⟩ := kv
    by_cases h : a = k
    · subst h
      simp [alookup]
    · simp only [alookup, if_neg h, List.map_cons, List.mem_cons, ih]
      constructor
      · intro hm
        exact Or.inr hm
      · rintro (hm | hm)
        · exact absurd hm.symm h
        · exact hm

theorem mem_moduleKeys_iff (st : ResolverState) (k : String) :
    k ∈ moduleKeys st ↔ (alookup k st.modules).isSome = true :=
  (alookup_isSome_iff_mem st.modules k).symm

theorem filter_not_mem_length_le (l s1 s2 : List String)
    (hsub : ∀ x, x ∈ s1 → x ∈ s2) :
    (l.filter (fun k => k ∉ s2)).length ≤ (l.filter (fun k => k ∉ s1)).length := by
  induction l with
  | nil => simp
  | cons a t ih =>
    by_cases h1 : a ∈ s1
    · have h2 : a ∈ s2 := hsub a h1
      simp only [List.filter_cons]
      rw [if_neg (by simp [h2]), if_neg (by simp [h1])]
      exact ih
    · by_cases h2 : a ∈ s2
      · simp only [List.filter_cons]
        rw [if_neg (by simp [h2]), if_pos (by simp [h1] : decide (a ∉ s1) = true)]
        simp only [List.length_cons]
        exact le_trans ih (Nat.le_succ _)
      · simp only [List.filter_cons]
        rw [if_pos (by simp [h2] : decide (a ∉ s2) = true),
            if_pos (by simp [h1] : decide (a ∉ s1) = true)]
        simp only [List.length_cons]
        exact Nat.succ_le_succ ih

theorem filter_not_mem_length_lt (l seen : List String) (spec : String)
    (hmem : spec ∈ l) (hnot : spec ∉ seen) :
    (l.filter (fun k => k ∉ seen ++ [spec])).length <
      (l.filter (fun k => k ∉ seen)).length := by
  induction l with
  | nil => simp at hmem
  | cons a t ih =>
    by_cases ha : a = spec
    · subst ha
      simp only [List.filter_cons]
      rw [if_neg (by simp : ¬(decide (a ∉ seen ++ [a]) = true)),
          if_pos (by simp [hnot] : decide (a ∉ seen) = true)]
      simp only [List.length_cons]
      exact Nat.lt_succ_of_le
        (filter_not_mem_length_le t seen (seen ++ [a]) (fun x hx => by simp [hx]))
    · have hmem2 : spec ∈ t := by
        rcases List.mem_cons.mp hmem with h | h
        · exact absurd h.symm ha
        · exact h
      by_cases hs : a ∈ seen
      · have hs2 : a ∈ seen ++ [spec] := by simp [hs]
        simp only [List.filter_cons]
        rw [if_neg (by simp [hs2]), if_neg (by simp [hs])]
        exact ih hmem2
      · have hs2 : a ∉ seen ++ [spec] := by simp [hs, ha]
        simp only [List.filter_cons]
        rw [if_pos (by simp [hs2] : decide (a ∉ seen ++ [spec]) = true),
            if_pos (by simp [hs] : decide (a ∉ seen) = true)]
        simp only [List.length_cons]
        exact Nat.succ_lt_succ (ih hmem2)

theorem unseenCount_le (st : ResolverState) (seen : List String) :
    unseenCount st seen ≤ (moduleKeys st).length :=
  List.length_filter_le _ _

theorem unseenCount_mono (st : ResolverState) (seen seen2 : List String)
    (hsub : ∀ x, x ∈ seen → x ∈ seen2) :
    unseenCount st seen2 ≤ unseenCount st seen :=
  filter_not_mem_length_le (moduleKeys st) seen seen2 hsub

theorem unseenCount_append_lt (st : ResolverState) (seen : List String) (spec : String)
    (hmem : spec ∈ moduleKeys st) (hnot : spec ∉ seen) :
    unseenCount st (seen ++ [spec]) < unseenCount st seen :=
  filter_not_mem_length_lt (moduleKeys st) seen spec hmem hnot

theorem walk_zero (env : Env) (st : ResolverState) (seen : List String) (spec : String) :
    walk env 0 st seen spec = (st, seen) := rfl

theorem walk_mem_seen (env : Env) (fuel : Nat) (st : ResolverState) (seen : List String)
    (spec : String) (h : spec ∈ seen) :
    walk env (fuel + 1) st seen spec = (st, seen) := by
  simp [walk, h]

theorem walk_cached_esm (env : Env) (fuel : Nat) (st : ResolverState) (seen : List String)
    (spec : String) (info : ResolvedInfo) (hmem : spec ∉ seen)
    (hlk : alookup spec st.modules = some (Module.esm info)) :
    walk env (fuel + 1) st seen spec =
      walkList env fuel st (seen ++ [spec])
        (info.dependencies.map (fun d => d.specifier)) := by
  simp [walk, hmem, hlk, walkList]

theorem walk_cached_other (env : Env) (fuel : Nat) (st : ResolverState) (seen : List String)
    (spec : String) (m : Module) (hmem : spec ∉ seen)
    (hlk : alookup spec st.modules = some m) (hne : ∀ info, m ≠ Module.esm info) :
    walk env (fuel + 1) st seen spec = (st, seen ++ [spec]) := by
  rcases m with info | ⟨s, p⟩ | ⟨s, n⟩ | ⟨s, e⟩
  · exact absurd rfl (hne info)
  all_goals simp [walk, hmem, hlk]

theorem walk_resolve_error (env : Env) (fuel : Nat) (st : ResolverState)
    (seen : List String) (spec : String) (e : ResolveErr) (hmem : spec ∉ seen)
    (hlk : alookup spec st.modules = none)
    (hres : (resolve env st spec none).result = Except.error e) :
    walk env (fuel + 1) st seen spec =
      ((resolve env st spec none).state, seen ++ [spec]) := by
  simp [walk, hmem, hlk, hres]

theorem walk_resolve_ok (env : Env) (fuel : Nat) (st : ResolverState)
    (seen : List String) (spec : String) (v : Option String) (hmem : spec ∉ seen)
    (hlk : alookup spec st.modules = none)
    (hres : (resolve env st spec none).result = Except.ok v) :
    walk env (fuel + 1) st seen spec =
      match alookup spec (resolve env st spec none).state.modules with
      | some (Module.esm info) =>
        walkList env fuel (resolve env st spec none).state (seen ++ [spec])
          (info.dependencies.map (fun d => d.specifier))
      | _ => ((resolve env st spec none).state, seen ++ [spec]) := by
  simp only [walk, hmem, if_neg hmem, hlk, Option.isSome_none, Bool.false_eq_true,
    if_false, hres, walkList]

theorem walkList_nil (env : Env) (fuel : Nat) (st : ResolverState) (seen : List String) :
    walkList env fuel st seen [] = (st, seen) := rfl

theorem walkList_cons (env : Env) (fuel : Nat) (st : ResolverState) (seen : List String)
    (d : String) (ds : List String) :
    walkList env fuel st seen (d :: ds) =
      walkList env fuel (walk env fuel st seen d).1 (walk env fuel st seen d).2 ds := rfl

theorem walk_mono (env : Env) : ∀ fuel : Nat,
    (∀ st seen spec x, x ∈ seen → x ∈ (walk env fuel st seen spec).2) ∧
    (∀ ds st seen x, x ∈ seen → x ∈ (walkList env fuel st seen ds).2) := by
  intro fuel
  induction fuel with
  | zero =>
    have hw : ∀ st seen spec x, x ∈ seen → x ∈ (walk env 0 st seen spec).2 := by
      intro st seen spec x hx
      simpa [walk_zero] using hx
    refine ⟨hw, ?_⟩
    intro ds
    induction ds with
    | nil =>
      intro st seen x hx
      simpa [walkList_nil] using hx
    | cons d t ih =>
      intro st seen x hx
      rw [walkList_cons]
      exact ih _ _ x (hw st seen d x hx)
  | succ fuel ih =>
    have hw : ∀ st seen spec x, x ∈ seen → x ∈ (walk env (fuel + 1) st seen spec).2 := by
      intro st seen spec x hx
      have hx1 : x ∈ seen ++ [spec] := by simp [hx]
      by_cases hmem : spec ∈ seen
      · simpa [walk_mem_seen env fuel st seen spec hmem] using hx
      · rcases hlk : alookup spec st.modules with _ | m
        · rcases hres : (resolve env st spec none).result with e | v
          · rw [walk_resolve_error env fuel st seen spec e hmem hlk hres]
            simpa using hx1
          · rw [walk_resolve_ok env fuel st seen spec v hmem hlk hres]
            rcases hlk2 : alookup spec (resolve env st spec none).state.modules with _ | m2
            · simpa using hx1
            · rcases m2 with info | ⟨s, p⟩ | ⟨s, n⟩ | ⟨s, e2⟩
              · exact ih.2 _ _ _ x hx1
              all_goals simpa using hx1
        · rcases m with info | ⟨s, p⟩ | ⟨s, n⟩ | ⟨s, e2⟩
          · rw [walk_cached_esm env fuel st seen spec info hmem hlk]
            exact ih.2 _ _ _ x hx1
          all_goals
            rw [walk_cached_other env fuel st seen spec _ hmem hlk (by intro info h; cases h)]
            simpa using hx1
    refine ⟨hw, ?_⟩
    intro ds
    induction ds with
    | nil =>
      intro st seen x hx
      simpa [walkList_nil] using hx
    | cons d t iht =>
      intro st seen x hx
      rw [walkList_cons]
      exact iht _ _ x (hw st seen d x hx)

theorem walk_nodup (env : Env) : ∀ fuel : Nat,
    (∀ st seen spec, seen.Nodup → (walk env fuel st seen spec).2.Nodup) ∧
    (∀ ds st seen, seen.Nodup → (walkList env fuel st seen ds).2.Nodup) := by
  intro fuel
  induction fuel with
  | zero =>
    have hw : ∀ st seen spec, seen.Nodup → (walk env 0 st seen spec).2.Nodup := by
      intro st seen spec h
      simpa [walk_zero] using h
    refine ⟨hw, ?_⟩
    intro ds
    induction ds with
    | nil =>
      intro st seen h
      simpa [walkList_nil] using h
    | cons d t ih =>
      intro st seen h
      rw [walkList_cons]
      exact ih _ _ (hw st seen d h)
  | succ fuel ih =>
    have hw : ∀ st seen spec, seen.Nodup → (walk env (fuel + 1) st seen spec).2.Nodup := by
      intro st seen spec h
      by_cases hmem : spec ∈ seen
      · simpa [walk_mem_seen env fuel st seen spec hmem] using h
      · have h1 : (seen ++ [spec]).Nodup := by
          refine List.Nodup.append h (List.nodup_singleton _) ?_
          intro a ha hb
          simp only [List.mem_singleton] at hb
          subst hb
          exact hmem ha
        rcases hlk : alookup spec st.modules with _ | m
        · rcases hres : (resolve env st spec none).result with e | v
          · rw [walk_resolve_error env fuel st seen spec e hmem hlk hres]
            simpa using h1
          · rw [walk_resolve_ok env fuel st seen spec v hmem hlk hres]
            rcases hlk2 : alookup spec (resolve env st spec none).state.modules with _ | m2
            · simpa using h1
            · rcases m2 with info | ⟨s, p⟩ | ⟨s, n⟩ | ⟨s, e2⟩
              · exact ih.2 _ _ _ h1
              all_goals simpa using h1
        · rcases m with info | ⟨s, p⟩ | ⟨s, n⟩ | ⟨s, e2⟩
          · rw [walk_cached_esm env fuel st seen spec info hmem hlk]
            exact ih.2 _ _ _ h1
          all_goals
            rw [walk_cached_other env fuel st seen spec _ hmem hlk (by intro info hi; cases hi)]
            simpa using h1
    refine ⟨hw, ?_⟩
    intro ds
    induction ds with
    | nil =>
      intro st seen h
      simpa [walkList_nil] using h
    | cons d t iht =>
      intro st seen h
      rw [walkList_cons]
      exact iht _ _ (hw st seen d h)

theorem walk_closed_sound (env : Env) (st0 : ResolverState)
    (hclosed : ClosedGraph st0) : ∀ fuel : Nat,
    (∀ seen spec, spec ∈ moduleKeys st0 →
      (walk env fuel st0 seen spec).1 = st0 ∧
      (∀ x ∈ (walk env fuel st0 seen spec).2, x ∈ seen ∨ Reach st0 spec x)) ∧
    (∀ ds seen root, (∀ d ∈ ds, d ∈ moduleKeys st0) → (∀ d ∈ ds, Reach st0 root d) →
      (walkList env fuel st0 seen ds).1 = st0 ∧
      (∀ x ∈ (walkList env fuel st0 seen ds).2, x ∈ seen ∨ Reach st0 root x)) := by
  intro fuel
  induction fuel with
  | zero =>
    have hw : ∀ seen spec, spec ∈ moduleKeys st0 →
        (walk env 0 st0 seen spec).1 = st0 ∧
        (∀ x ∈ (walk env 0 st0 seen spec).2, x ∈ seen ∨ Reach st0 spec x) := by
      intro seen spec _
      rw [walk_zero]
      exact ⟨rfl, fun x hx => Or.inl hx⟩
    refine ⟨hw, ?_⟩
    intro ds
    induction ds with
    | nil =>
      intro seen root _ _
      rw [walkList_nil]
      exact ⟨rfl, fun x hx => Or.inl hx⟩
    | cons d t iht =>
      intro seen root hk hr
      rw [walkList_cons, walk_zero]
      exact iht seen root (fun d2 h2 => hk d2 (by simp [h2])) (fun d2 h2 => hr d2 (by simp [h2]))
  | succ fuel ih =>
    obtain ⟨ihw, ihl⟩ := ih
    have hw : ∀ seen spec, spec ∈ moduleKeys st0 →
        (walk env (fuel + 1) st0 seen spec).1 = st0 ∧
        (∀ x ∈ (walk env (fuel + 1) st0 seen spec).2, x ∈ seen ∨ Reach st0 spec x) := by
      intro seen spec hkey
      by_cases hmem : spec ∈ seen
      · rw [walk_mem_seen env fuel st0 seen spec hmem]
        exact ⟨rfl, fun x hx => Or.inl hx⟩
      · have hsome : (alookup spec st0.modules).isSome = true :=
          (mem_moduleKeys_iff st0 spec).mp hkey
        rcases hlk : alookup spec st0.modules with _ | m
        · rw [hlk] at hsome
          simp at hsome
        · rcases m with info | ⟨s, p⟩ | ⟨s, n⟩ | ⟨s, e⟩
          · rw [walk_cached_esm env fuel st0 seen spec info hmem hlk]
            have hkd : ∀ d ∈ info.dependencies.map (fun d => d.specifier),
                d ∈ moduleKeys st0 := by
              intro d hd
              exact hclosed spec d ⟨info, hlk, hd⟩
            have hrd : ∀ d ∈ info.dependencies.map (fun d => d.specifier),
                Reach st0 spec d := by
              intro d hd
              exact Relation.ReflTransGen.single ⟨info, hlk, hd⟩
            have hres := ihl (info.dependencies.map (fun d => d.specifier))
              (seen ++ [spec]) spec hkd hrd
            refine ⟨hres.1, ?_⟩
            intro x hx
            rcases hres.2 x hx with hx1 | hx1
            · rcases List.mem_append.mp hx1 with h | h
              · exact Or.inl h
              · simp only [List.mem_singleton] at h
                subst h
                exact Or.inr Relation.ReflTransGen.refl
            · exact Or.inr hx1
          all_goals
            rw [walk_cached_other env fuel st0 seen spec _ hmem hlk
              (by intro info hi; cases hi)]
          all_goals
            refine ⟨rfl, ?_⟩
            intro x hx
            rcases List.mem_append.mp hx with h | h
            · exact Or.inl h
            · simp only [List.mem_singleton] at h
              subst h
              exact Or.inr Relation.ReflTransGen.refl
    refine ⟨hw, ?_⟩
    intro ds
    induction ds with
    | nil =>
      intro seen root _ _
      rw [walkList_nil]
      exact ⟨rfl, fun x hx => Or.inl hx⟩
    | cons d t iht =>
      intro seen root hk hr
      obtain ⟨hd1, hd2⟩ := hw seen d (hk d (by simp))
      rw [walkList_cons, hd1]
      have ht := iht ((walk env (fuel + 1) st0 seen d).2) root
        (fun d2 h2 => hk d2 (by simp [h2])) (fun d2 h2 => hr d2 (by simp [h2]))
      refine ⟨ht.1, ?_⟩
      intro x hx
      rcases ht.2 x hx with hx1 | hx1
      · rcases hd2 x hx1 with h | h
        · exact Or.inl h
        · exact Or.inr (Relation.ReflTransGen.trans (hr d (by simp)) h)
      · exact Or.inr hx1

theorem walk_fuel_stable (env : Env) (st0 : ResolverState) (hclosed : ClosedGraph st0) :
    ∀ fuel : Nat,
    (∀ seen spec, spec ∈ moduleKeys st0 → unseenCount st0 seen + 1 ≤ fuel →
      walk env fuel st0 seen spec = walk env (fuel + 1) st0 seen spec) ∧
    (∀ ds seen, (∀ d ∈ ds, d ∈ moduleKeys st0) → unseenCount st0 seen + 1 ≤ fuel →
      walkList env fuel st0 seen ds = walkList env (fuel + 1) st0 seen ds) := by
  intro fuel
  induction fuel with
  | zero =>
    constructor
    · intro seen spec _ hf
      exact absurd hf (by omega)
    · intro ds seen _ hf
      exact absurd hf (by omega)
  | succ fuel ih =>
    obtain ⟨ihw, ihl⟩ := ih
    have hw : ∀ seen spec, spec ∈ moduleKeys st0 → unseenCount st0 seen + 1 ≤ fuel + 1 →
        walk env (fuel + 1) st0 seen spec = walk env (fuel + 1 + 1) st0 seen spec := by
      intro seen spec hkey hf
      by_cases hmem : spec ∈ seen
      · rw [walk_mem_seen env fuel st0 seen spec hmem,
          walk_mem_seen env (fuel + 1) st0 seen spec hmem]
      · have hsome : (alookup spec st0.modules).isSome = true :=
          (mem_moduleKeys_iff st0 spec).mp hkey
        rcases hlk : alookup spec st0.modules with _ | m
        · rw [hlk] at hsome
          simp at hsome
        · rcases m with info | ⟨s, p⟩ | ⟨s, n⟩ | ⟨s, e⟩
          · rw [walk_cached_esm env fuel st0 seen spec info hmem hlk,
              walk_cached_esm env (fuel + 1) st0 seen spec info hmem hlk]
            have hkd : ∀ d ∈ info.dependencies.map (fun d => d.specifier),
                d ∈ moduleKeys st0 := by
              intro d hd
              exact hclosed spec d ⟨info, hlk, hd⟩
            have hlt := unseenCount_append_lt st0 seen spec hkey hmem
            exact ihl (info.dependencies.map (fun d => d.specifier)) (seen ++ [spec])
              hkd (by omega)
          all_goals
            rw [walk_cached_other env fuel st0 seen spec _ hmem hlk
                (by intro info hi; cases hi),
              walk_cached_other env (fuel + 1) st0 seen spec _ hmem hlk
                (by intro info hi; cases hi)]
    refine ⟨hw, ?_⟩
    intro ds
    induction ds with
    | nil =>
      intro seen _ _
      rw [walkList_nil, walkList_nil]
    | cons d t iht =>
      intro seen hk hf
      rw [walkList_cons, walkList_cons]
      rw [← hw seen d (hk d (by simp)) hf]
      have hst : (walk env (fuel + 1) st0 seen d).1 = st0 :=
        ((walk_closed_sound env st0 hclosed (fuel + 1)).1 seen d (hk d (by simp))).1
      rw [hst]
      have hsub : ∀ x, x ∈ seen → x ∈ (walk env (fuel + 1) st0 seen d).2 := by
        intro x hx
        exact (walk_mono env (fuel + 1)).1 st0 seen d x hx
      have hm := unseenCount_mono st0 seen ((walk env (fuel + 1) st0 seen d).2) hsub
      exact iht ((walk env (fuel + 1) st0 seen d).2)
        (fun d2 h2 => hk d2 (by simp [h2])) (by omega)

theorem walk_complete (env : Env) (st0 : ResolverState) (hclosed : ClosedGraph st0) :
    ∀ fuel : Nat,
    (∀ seen spec, spec ∈ moduleKeys st0 → unseenCount st0 seen + 1 ≤ fuel →
      spec ∈ (walk env fuel st0 seen spec).2 ∧
      (∀ a ∈ (walk env fuel st0 seen spec).2, a ∉ seen →
        ∀ b, DepEdge st0 a b → b ∈ (walk env fuel st0 seen spec).2)) ∧
    (∀ ds seen, (∀ d ∈ ds, d ∈ moduleKeys st0) → unseenCount st0 seen + 1 ≤ fuel →
      (∀ d ∈ ds, d ∈ (walkList env fuel st0 seen ds).2) ∧
      (∀ a ∈ (walkList env fuel st0 seen ds).2, a ∉ seen →
        ∀ b, DepEdge st0 a b → b ∈ (walkList env fuel st0 seen ds).2)) := by
  intro fuel
  induction fuel with
  | zero =>
    constructor
    · intro seen spec _ hf
      exact absurd hf (by omega)
    · intro ds seen _ hf
      exact absurd hf (by omega)
  | succ fuel ih =>
    obtain ⟨ihw, ihl⟩ := ih
    have hw : ∀ seen spec, spec ∈ moduleKeys st0 → unseenCount st0 seen + 1 ≤ fuel + 1 →
        spec ∈ (walk env (fuel + 1) st0 seen spec).2 ∧
        (∀ a ∈ (walk env (fuel + 1) st0 seen spec).2, a ∉ seen →
          ∀ b, DepEdge st0 a b → b ∈ (walk env (fuel + 1) st0 seen spec).2) := by
      intro seen spec hkey hf
      by_cases hmem : spec ∈ seen
      · rw [walk_mem_seen env fuel st0 seen spec hmem]
        exact ⟨hmem, fun a ha hna b hb => absurd ha hna⟩
      · have hsome : (alookup spec st0.modules).isSome = true :=
          (mem_moduleKeys_iff st0 spec).mp hkey
        rcases hlk : alookup spec st0.modules with _ | m
        · rw [hlk] at hsome
          simp at hsome
        · rcases m with info | ⟨s, p⟩ | ⟨s, n⟩ | ⟨s, e⟩
          · rw [walk_cached_esm env fuel st0 seen spec info hmem hlk]
            have hkd : ∀ d ∈ info.dependencies.map (fun d => d.specifier),
                d ∈ moduleKeys st0 := by
              intro d hd
              exact hclosed spec d ⟨info, hlk, hd⟩
            have hlt := unseenCount_append_lt st0 seen spec hkey hmem
            have hL := ihl (info.dependencies.map (fun d => d.specifier)) (seen ++ [spec])
              hkd (by omega)
            constructor
            · exact (walk_mono env fuel).2 _ st0 (seen ++ [spec]) spec (by simp)
            · intro a ha hna b hb
              by_cases haspec : a = spec
              · subst haspec
                obtain ⟨info2, hlk2, hb2⟩ := hb
                rw [hlk] at hlk2
                injection hlk2 with hlk3
                injection hlk3 with hlk4
                subst hlk4
                exact hL.1 b hb2
              · have hna1 : a ∉ seen ++ [spec] := by
                  simp [hna, haspec]
                exact hL.2 a ha hna1 b hb
          all_goals
            rw [walk_cached_other env fuel st0 seen spec _ hmem hlk
              (by intro info hi; cases hi)]
          all_goals
            constructor
            · simp
            · intro a ha hna b hb
              have haspec : a = spec := by
                rcases List.mem_append.mp ha with h | h
                · exact absurd h hna
                · simpa using h
              subst haspec
              obtain ⟨info2, hlk2, hb2⟩ := hb
              rw [hlk] at hlk2
              cases hlk2
    refine ⟨hw, ?_⟩
    intro ds
    induction ds with
    | nil =>
      intro seen _ _
      constructor
      · intro d hd
        simp at hd
      · intro a ha hna b hb
        rw [walkList_nil] at ha
        exact absurd ha hna
    | cons d t iht =>
      intro seen hk hf
      have hst : (walk env (fuel + 1) st0 seen d).1 = st0 :=
        ((walk_closed_sound env st0 hclosed (fuel + 1)).1 seen d (hk d (by simp))).1
      have hP := hw seen d (hk d (by simp)) hf
      have hsub : ∀ x, x ∈ seen → x ∈ (walk env (fuel + 1) st0 seen d).2 := by
        intro x hx
        exact (walk_mono env (fuel + 1)).1 st0 seen d x hx
      have hm := unseenCount_mono st0 seen ((walk env (fuel + 1) st0 seen d).2) hsub
      have ht := iht ((walk env (fuel + 1) st0 seen d).2)
        (fun d2 h2 => hk d2 (by simp [h2])) (by omega)
      have hmono2 : ∀ x, x ∈ (walk env (fuel + 1) st0 seen d).2 →
          x ∈ (walkList env (fuel + 1) st0 ((walk env (fuel + 1) st0 seen d).2) t).2 := by
        intro x hx
        exact (walk_mono env (fuel + 1)).2 t st0 _ x hx
      constructor
      · intro d2 hd2
        rw [walkList_cons, hst]
        rcases List.mem_cons.mp hd2 with h | h
        · subst h
          exact hmono2 d2 hP.1
        · exact ht.1 d2 h
      · intro a ha hna b hb
        rw [walkList_cons, hst] at ha ⊢
        by_cases har : a ∈ (walk env (fuel + 1) st0 seen d).2
        · exact hmono2 b (hP.2 a har hna b hb)
        · exact ht.2 a ha har b hb

theorem closedGraph_stAB : ClosedGraph stAB := by
  intro a b hedge
  obtain ⟨info, hlk, hb⟩ := hedge
  by_cases hA : a = "A"
  · subst hA
    have h0 : alookup "A" stAB.modules =
        some (Module.esm (transformEsmModule (mkEsm "A" 1 ["B"]) [])) := by decide
    rw [h0] at hlk
    injection hlk with hlk1
    injection hlk1 with hlk2
    subst hlk2
    have hmap : (transformEsmModule (mkEsm "A" 1 ["B"]) []).dependencies.map
        (fun d => d.specifier) = ["B"] := by decide
    rw [hmap] at hb
    have hbeq : b = "B" := by simpa using hb
    subst hbeq
    decide
  · by_cases hB : a = "B"
    · subst hB
      have h0 : alookup "B" stAB.modules =
          some (Module.esm (transformEsmModule (mkEsm "B" 1 ["A"]) [])) := by decide
      rw [h0] at hlk
      injection hlk with hlk1
      injection hlk1 with hlk2
      subst hlk2
      have hmap : (transformEsmModule (mkEsm "B" 1 ["A"]) []).dependencies.map
          (fun d => d.specifier) = ["A"] := by decide
      rw [hmap] at hb
      have hbeq : b = "A" := by simpa using hb
      subst hbeq
      decide
    · have h0 : alookup a stAB.modules = none := by
        show alookup a
          [("A", Module.esm (transformEsmModule (mkEsm "A" 1 ["B"]) [])),
           ("B", Module.esm (transformEsmModule (mkEsm "B" 1 ["A"]) []))] = none
        simp only [alookup]
        rw [if_neg (fun h => hA h.symm), if_neg (fun h => hB h.symm)]
      rw [h0] at hlk
      cases hlk

/-- C7 (confirmed): on any closed cached dependency graph — one where every
dependency specifier of a cached esm record is itself cached, as a single
snapshot ingestion produces — the transitive walk stabilizes at fuel equal to
the number of cached specifiers plus one (termination, cycles included),
visits each canonical specifier at most once, and returns exactly the set of
canonical specifiers reachable from the entry; and on the concrete cyclic
graph where A and B depend on each other and A also names an unresolvable
specifier, the walk terminates, skips the failure silently, and returns each
reachable specifier once. -/
theorem collectDeps_terminates_and_visits :
    (∀ (env : Env) (st : ResolverState) (entry : String),
      ClosedGraph st → entry ∈ moduleKeys st →
      (∀ f, (moduleKeys st).length + 1 ≤ f →
        collectDeps env f st entry =
          collectDeps env ((moduleKeys st).length + 1) st entry) ∧
      (collectDeps env ((moduleKeys st).length + 1) st entry).2.Nodup ∧
      (∀ x, x ∈ (collectDeps env ((moduleKeys st).length + 1) st entry).2 ↔
        Reach st entry x)) ∧
    collectDeps envFail 3 stCyclic "A" = (stCyclic, ["A", "B", "bad"]) := by
  constructor
  · intro env st entry hclosed hentry
    have hN : unseenCount st [] + 1 ≤ (moduleKeys st).length + 1 := by
      have := unseenCount_le st []
      omega
    refine ⟨?_, ?_, ?_⟩
    · intro f hfN
      induction f, hfN using Nat.le_induction with
      | base => rfl
      | succ f hfN ihf =>
        rw [← ihf]
        show collectDeps env (f + 1) st entry = collectDeps env f st entry
        unfold collectDeps
        exact ((walk_fuel_stable env st hclosed f).1 [] entry hentry (by omega)).symm
    · exact (walk_nodup env _).1 st [] entry List.nodup_nil
    · intro x
      constructor
      · intro hx
        rcases ((walk_closed_sound env st hclosed _).1 [] entry hentry).2 x hx with h | h
        · simp at h
        · exact h
      · intro hreach
        have hF := (walk_complete env st hclosed ((moduleKeys st).length + 1)).1 [] entry
          hentry hN
        unfold Reach at hreach
        induction hreach with
        | refl => exact hF.1
        | tail hab hbc ihr => exact hF.2 _ ihr (by simp) _ hbc
  · decide

/-- Witness for C7: the cyclic two-node closed graph in which A and B depend
on each other satisfies the general statement's hypotheses. -/
theorem collectDeps_terminates_and_visits_witness :
    (collectDeps envFail ((moduleKeys stAB).length + 1) stAB "A").2.Nodup :=
  (collectDeps_terminates_and_visits.1 envFail stAB "A" closedGraph_stAB
    (by decide)).2.1

/-- C10 (confirmed): the walk adds every specifier it reaches to the seen set
before attempting its resolution, so the returned set also contains
specifiers whose on-demand resolution failed or that ended without a module
record: the returned set is a superset of the successfully retrieved modules.
On the concrete cyclic graph, the unresolvable "bad" is in the returned set
while absent from the final module cache. -/
theorem collectDeps_visits_unresolvable :
    (∀ (env : Env) (fuel : Nat) (st : ResolverState) (seen : List String) (spec : String),
      spec ∉ seen → spec ∈ (walk env (fuel + 1) st seen spec).2) ∧
    ("bad" ∈ (collectDeps envFail 3 stCyclic "A").2 ∧
      alookup "bad" (collectDeps envFail 3 stCyclic "A").1.modules = none) := by
  constructor
  · intro env fuel st seen spec hmem
    have hx1 : spec ∈ seen ++ [spec] := by simp
    rcases hlk : alookup spec st.modules with _ | m
    · rcases hres : (resolve env st spec none).result with e | v
      · rw [walk_resolve_error env fuel st seen spec e hmem hlk hres]
        simpa using hx1
      · rw [walk_resolve_ok env fuel st seen spec v hmem hlk hres]
        rcases hlk2 : alookup spec (resolve env st spec none).state.modules with _ | m2
        · simpa using hx1
        · rcases m2 with info | ⟨s, p⟩ | ⟨s, n⟩ | ⟨s, e2⟩
          · exact (walk_mono env fuel).2 _ _ _ spec hx1
          all_goals simpa using hx1
    · rcases m with info | ⟨s, p⟩ | ⟨s, n⟩ | ⟨s, e2⟩
      · rw [walk_cached_esm env fuel st seen spec info hmem hlk]
        exact (walk_mono env fuel).2 _ _ _ spec hx1
      all_goals
        rw [walk_cached_other env fuel st seen spec _ hmem hlk (by intro i hi; cases hi)]
      all_goals simpa using hx1
  · exact ⟨by decide, by decide⟩

/-- Witness for C10: a never-seen specifier with no cached record and a
failing oracle still ends up in the seen set. -/
theorem collectDeps_visits_unresolvable_witness :
    "q" ∈ (walk envFail 1 initialResolverState [] "q").2 :=
  collectDeps_visits_unresolvable.1 envFail 0 initialResolverState [] "q" (by decide)

end DenoViteUtils
